import Mathlib

/-!
# loki-logs: the log importer (`main.go`)

A shallow embedding of the input normalizers (the `/api/import-text` and
`/api/upload-files` handlers, `readFromFileWithServiceName`) and of the
ingestion formatter/sender (`sendLogsToLoki`), followed by the properties
proved about them.

Modelling conventions.

* A Go `string` is a list of Unicode code points (`GoString`), i.e. the text is
  taken to be valid UTF-8. `strings.TrimSpace` trims the code points for which
  `unicode.IsSpace` holds.
* `time.Now()` and `http.Post` are the two effects of the program. They are
  the fields of a `World`, threaded through the code as explicit state.
  The instant returned by `now` is the exact number of nanoseconds since the
  Unix epoch; `UnixNano` reduces it to a signed 64-bit integer.
* `json.Marshal` cannot fail on a `LokiRequest` (strings, a string map and
  string slices only), so the request value itself is handed to `post`.
* `bufio.Scanner` is modelled by the raw lines it will deliver and by its
  token limit: at a raw line of `MaxScanTokenSize` bytes or more `Scan` returns
  false with `ErrTooLong`; one more `Scan` would deliver the full buffer.
* The handlers are modelled from the point where the request method has been
  accepted and the form has been parsed.
-/

namespace LokiLogs

/-! ## Strings -/

/-- A Go string, as its sequence of code points. -/
abbrev GoString := List Char

/-- Go's `unicode.IsSpace`: the Latin-1 spaces `\t \n \v \f \r`, space, U+0085,
U+00A0, and beyond Latin-1 the code points with the `White_Space` property. -/
def isSpace (c : Char) : Bool :=
  c = '\t' || c = '\n' || c = '\x0b' || c = '\x0c' || c = '\r' || c = ' ' ||
  c = '\u0085' || c = '\u00a0' || c = '\u1680' ||
  (0x2000 ≤ c.toNat && c.toNat ≤ 0x200a) ||
  c = '\u2028' || c = '\u2029' || c = '\u202f' || c = '\u205f' || c = '\u3000'

/-- Go's `strings.TrimSpace`: drop the leading and the trailing white space. -/
def TrimSpace (s : GoString) : GoString :=
  (s.dropWhile isSpace).rdropWhile isSpace

/-- Go's `strings.HasPrefix`. -/
def HasPrefix (s p : GoString) : Bool :=
  p.isPrefixOf s

/-- Go's `strings.Split(s, sep)` for a one-character separator: all the pieces
between separators, empty ones included; never the empty list. -/
def Split (sep : Char) : GoString → List GoString
  | [] => [[]]
  | c :: cs =>
    if c = sep then [] :: Split sep cs
    else
      match Split sep cs with
      | [] => [[c]]
      | piece :: pieces => (c :: piece) :: pieces

/-- Cut a string at the first occurrence of `sep`: the text before it and the
text after it, or `none` when `sep` does not occur. -/
def cutFirst (sep : Char) : GoString → Option (GoString × GoString)
  | [] => none
  | c :: cs =>
    if c = sep then some ([], cs)
    else (cutFirst sep cs).map (fun p => (c :: p.1, p.2))

/-- Go's `strings.SplitN(s, sep, 2)` for a one-character separator: at most two
pieces, the second one holding everything after the first separator. -/
def SplitN2 (s : GoString) (sep : Char) : List GoString :=
  match cutFirst sep s with
  | none => [s]
  | some (before, after) => [before, after]

/-- Go's `strings.Join`. -/
def Join (elems : List GoString) (sep : GoString) : GoString :=
  sep.intercalate elems

/-- The decimal digit character of `d % 10`. -/
def digitChar (d : Nat) : Char :=
  Char.ofNat (48 + d % 10)

/-- The decimal digits of `u`, most significant first. The first argument bounds
the number of digits produced; `u` itself is always enough. -/
def natDigits : Nat → Nat → GoString
  | 0, u => [digitChar u]
  | fuel + 1, u =>
    if u < 10 then [digitChar u]
    else natDigits fuel (u / 10) ++ [digitChar u]

/-- Go's `strconv.FormatInt(i, 10)` (and the `%d` verb of `fmt`). -/
def FormatInt (i : Int) : GoString :=
  if i < 0 then '-' :: natDigits i.natAbs i.natAbs
  else natDigits i.toNat i.toNat

/-- The value of a non-empty string of decimal digits, `none` for any other
string. -/
def readDigits (s : GoString) : Option Nat :=
  if s ≠ [] ∧ s.all Char.isDigit then
    some (s.foldl (fun acc c => acc * 10 + (c.toNat - 48)) 0)
  else none

/-- Reading a string as a base-10 integer: an optional minus sign followed by
one or more decimal digits. This is how the timestamps of a request are read
back; it is the inverse of `FormatInt`. -/
def readInt (s : GoString) : Option Int :=
  match s with
  | '-' :: ds =>
    match readDigits ds with
    | some n => some (-(Int.ofNat n))
    | none => none
  | ds =>
    match readDigits ds with
    | some n => some (Int.ofNat n)
    | none => none

/-! ## Wire format and the outside world -/

/-- The `LokiStream` struct; the label map is kept as the list of its entries. -/
structure LokiStream where
  Stream : List (GoString × GoString)
  Values : List (List GoString)
deriving DecidableEq, Repr

/-- The `LokiRequest` struct. -/
structure LokiRequest where
  Streams : List LokiStream
deriving DecidableEq, Repr

/-- The effects the program performs, over an abstract state of the outside
world: reading the wall clock (`time.Now()`, in nanoseconds since the Unix
epoch) and posting a request to a URL (`http.Post` followed by reading the
response body), which either fails at the transport level with an error text
or returns the status code and the body. -/
structure World (σ : Type) where
  now : σ → Int × σ
  post : σ → GoString → LokiRequest → Except GoString (Int × GoString) × σ

/-- An HTTP response written by a handler. -/
structure Response where
  status : Nat
  body : GoString
deriving DecidableEq, Repr

/-- Go's `http.Error`: the message followed by a newline, with the given status. -/
def httpError (msg : GoString) (code : Nat) : Response :=
  ⟨code, msg ++ ['\n']⟩

def StatusOK : Nat := 200
def StatusNoContent : Int := 204
def StatusBadRequest : Nat := 400
def StatusInternalServerError : Nat := 500

/-! ## `sendLogsToLoki` -/

/-- Reduction of an integer to the signed 64-bit range (two's complement). -/
def wrapInt64 (x : Int) : Int :=
  (x + 2 ^ 63) % 2 ^ 64 - 2 ^ 63

/-- The constant `time.Microsecond`, in nanoseconds. -/
def Microsecond : Int := 1000

/-- The expression `now.Add(time.Duration(i)*time.Microsecond).UnixNano()`:
the duration is an `int64` product, and `UnixNano` is an `int64`. -/
def unixNanoAfter (now : Int) (i : Nat) : Int :=
  wrapInt64 (now + wrapInt64 (wrapInt64 i * Microsecond))

/-- The loop of `sendLogsToLoki` over `lines` from index `i` on, appending to
`values`: a line that is blank after trimming is skipped, any other line is
appended, untrimmed, with the timestamp of its index. -/
def buildValues (now : Int) : Nat → List GoString → List (List GoString) → List (List GoString)
  | _, [], values => values
  | i, line :: rest, values =>
    if TrimSpace line = [] then buildValues now (i + 1) rest values
    else buildValues now (i + 1) rest (values ++ [[FormatInt (unixNanoAfter now i), line]])

/-- The `LokiRequest` literal of `sendLogsToLoki`. -/
def mkRequest (job : GoString) (values : List (List GoString)) : LokiRequest :=
  { Streams := [{ Stream := [("job".toList, job), ("source".toList, "ui-import".toList),
                             ("service_name".toList, job)],
                  Values := values }] }

/-- The path appended to the backend base URL. -/
def pushPath : GoString := "/loki/api/v1/push".toList

/-- The tail of `sendLogsToLoki`: what is made of the outcome of `http.Post`.
`none` is the `nil` error. -/
def interpretPost (r : Except GoString (Int × GoString)) : Option GoString :=
  match r with
  | .error err => some ("failed to send to Loki: ".toList ++ err)
  | .ok (statusCode, body) =>
    if statusCode ≠ StatusNoContent then
      some ("Loki returned status ".toList ++ FormatInt statusCode ++ ": ".toList ++ body)
    else none

/-- The function `sendLogsToLoki`: the returned error (`none` for `nil`) and the
state of the world afterwards. -/
def sendLogsToLoki {σ : Type} (W : World σ) (s : σ) (lokiURL : GoString)
    (lines : List GoString) (job : GoString) : Option GoString × σ :=
  if lines.length = 0 then (none, s)
  else
    let t := W.now s
    let values := buildValues t.1 0 lines []
    if values.length = 0 then (none, t.2)
    else
      let resp := W.post t.2 (lokiURL ++ pushPath) (mkRequest job values)
      (interpretPost resp.1, resp.2)

/-! ## The text handler (`/api/import-text`) -/

/-- The literal `"service_name:"`. -/
def serviceNameTag : GoString := "service_name:".toList

/-- Lines 72-75 (and 187-190): split the trimmed first line at its first colon
and trim what follows; empty when there are not two parts. -/
def declaredName (firstLine : GoString) : GoString :=
  match SplitN2 firstLine ':' with
  | [_, rest] => TrimSpace rest
  | _ => []

/-- Lines 69-78 of the text handler: the service name read from the first line
and the lines that remain (the first line is removed only when it carries the
tag). -/
def textHeader (lines : List GoString) : GoString × List GoString :=
  match lines with
  | [] => ([], lines)
  | l0 :: rest =>
    if HasPrefix (TrimSpace l0) serviceNameTag then (declaredName (TrimSpace l0), rest)
    else ([], lines)

/-- Lines 85-89: the loop collecting the trimmed non-blank lines. -/
def collectValid (lines : List GoString) : List GoString :=
  lines.foldl (fun validLines line =>
    if TrimSpace line ≠ [] then validLines ++ [TrimSpace line] else validLines) []

def msgNoLogText : GoString := "No log text provided".toList
def msgMissingServiceName : GoString :=
  "Missing service_name. First line must be 'service_name: your-service-name'".toList
def msgNoValidLines : GoString := "No valid log lines found".toList

/-- Lines 59-89 of the text handler: the values of `validLines` and
`serviceName` after the collecting loop, or the error response written before
it. -/
def textNormalize (logText : GoString) : Except Response (List GoString × GoString) :=
  if logText = [] then .error (httpError msgNoLogText StatusBadRequest)
  else
    let h := textHeader (Split '\n' logText)
    if h.1 = [] then .error (httpError msgMissingServiceName StatusBadRequest)
    else .ok (collectValid h.2, h.1)

/-- Lines 59-94 of the text handler: everything before the call of
`sendLogsToLoki`. The result is either the arguments `(validLines, serviceName)`
of that call or the error response written instead. -/
def textPrepare (logText : GoString) : Except Response (List GoString × GoString) :=
  match textNormalize logText with
  | .error r => .error r
  | .ok (validLines, serviceName) =>
    if validLines.length = 0 then .error (httpError msgNoValidLines StatusBadRequest)
    else .ok (validLines, serviceName)

/-- The `/api/import-text` handler for a POST request with form value `logText`. -/
def importText {σ : Type} (W : World σ) (s : σ) (lokiURL : GoString) (logText : GoString) :
    Response × σ :=
  match textPrepare logText with
  | .error r => (r, s)
  | .ok (validLines, serviceName) =>
    match sendLogsToLoki W s lokiURL validLines serviceName with
    | (some err, s') =>
      (httpError ("Failed to send logs to Loki: ".toList ++ err) StatusInternalServerError, s')
    | (none, s') =>
      (⟨StatusOK, "Successfully imported ".toList ++ FormatInt validLines.length ++
          " log lines as service '".toList ++ serviceName ++ "'".toList⟩, s')

/-! ## Reading an uploaded file -/

/-- The constant `bufio.MaxScanTokenSize`. -/
def MaxScanTokenSize : Nat := 65536

/-- The number of bytes of the UTF-8 encoding of a string. -/
def byteLen (s : GoString) : Nat :=
  (s.map Char.utf8Size).sum

/-- The raw lines a `bufio.Scanner` with `ScanLines` cuts its input into: the
text between newlines, with no empty last line after a final newline (and none
at all for empty input). -/
def rawLines : GoString → List GoString
  | [] => []
  | c :: cs =>
    if c = '\n' then [] :: rawLines cs
    else
      match rawLines cs with
      | [] => [[c]]
      | l :: ls => (c :: l) :: ls

/-- The helper `dropCR` of `bufio.ScanLines`: drop one trailing carriage return. -/
def dropCR (data : GoString) : GoString :=
  if data.getLast? = some '\r' then data.dropLast else data

/-- One successful `scanner.Scan()` followed by `scanner.Text()` on the next raw
line, or `none` when the line does not fit the scanner's buffer (`Scan` returns
false and `Err` is `ErrTooLong`). -/
def scanText (raw : GoString) : Option GoString :=
  if MaxScanTokenSize ≤ byteLen raw then none else some (dropCR raw)

/-- The text of `bufio.ErrTooLong`. -/
def ErrTooLong : GoString := "bufio.Scanner: token too long".toList

/-- The loop `for scanner.Scan()` of `readFromFileWithServiceName` over the raw
lines still to come: the final `lines` and `scanner.Err()`. -/
def scanRest : List GoString → List GoString → List GoString × Option GoString
  | [], lines => (lines, none)
  | raw :: rest, lines =>
    match scanText raw with
    | none => (lines, some ErrTooLong)
    | some text =>
      if TrimSpace text ≠ [] then scanRest rest (lines ++ [TrimSpace text])
      else scanRest rest lines

/-- The longest run of whole code points at the start of a string whose UTF-8
encoding fits `n` bytes: what a buffer of `n` bytes holds of the string, up to
the bytes of a character cut by the end of the buffer, which are no code point. -/
def takeBytes : Nat → GoString → GoString
  | _, [] => []
  | n, c :: cs => if c.utf8Size ≤ n then c :: takeBytes (n - c.utf8Size) cs else []

/-- The function `readFromFileWithServiceName` on the content of the file: the
returned `lines`, `serviceName` and error. When the first `Scan` stops with
`ErrTooLong`, the `Scan` that opens the loop still delivers the full buffer as
one last token, which is collected as a line before the loop ends. -/
def readFromFileWithServiceName (file : GoString) :
    List GoString × GoString × Option GoString :=
  match rawLines file with
  | [] => ([], [], none)
  | raw :: rest =>
    match scanText raw with
    | none =>
      let line := TrimSpace (dropCR (takeBytes MaxScanTokenSize raw))
      (if line ≠ [] then [line] else [], [], some ErrTooLong)
    | some text =>
      let firstLine := TrimSpace text
      if HasPrefix firstLine serviceNameTag then
        let r := scanRest rest []
        (r.1, declaredName firstLine, r.2)
      else
        let r := scanRest rest (if firstLine ≠ [] then [firstLine] else [])
        (r.1, [], r.2)

/-! ## The file handler (`/api/upload-files`) -/

/-- An uploaded file: its name and the outcome of `fileHeader.Open()`, either
an error text or the content of the file. -/
structure FileHeader where
  Filename : GoString
  Open : Except GoString GoString

/-- Lines 127-148 of the file handler's loop body: everything before the call
of `sendLogsToLoki`. The result is either the arguments `(lines, serviceName)`
of that call or the entry appended to `errors` instead. -/
def filePrepare (fileHeader : FileHeader) : Except GoString (List GoString × GoString) :=
  match fileHeader.Open with
  | .error err => .error ("Failed to open ".toList ++ fileHeader.Filename ++ ": ".toList ++ err)
  | .ok file =>
    match readFromFileWithServiceName file with
    | (_, _, some err) =>
      .error ("Failed to read ".toList ++ fileHeader.Filename ++ ": ".toList ++ err)
    | (lines, serviceName, none) =>
      if serviceName = [] then
        .error ("ERROR: ".toList ++ fileHeader.Filename ++
          " is missing service_name. Add 'service_name: your-service-name' as the first line".toList)
      else if lines.length = 0 then
        .error ("ERROR: ".toList ++ fileHeader.Filename ++ " contains no valid log lines".toList)
      else .ok (lines, serviceName)

/-- The variables `results`, `errors` and `totalLines` of the file handler. -/
structure UploadAcc where
  results : List GoString
  errors : List GoString
  totalLines : Nat
deriving DecidableEq, Repr

/-- One iteration of the file handler's loop (lines 126-157). -/
def uploadStep {σ : Type} (W : World σ) (lokiURL : GoString)
    (st : UploadAcc × σ) (fileHeader : FileHeader) : UploadAcc × σ :=
  match filePrepare fileHeader with
  | .error entry => ({ st.1 with errors := st.1.errors ++ [entry] }, st.2)
  | .ok (lines, serviceName) =>
    match sendLogsToLoki W st.2 lokiURL lines serviceName with
    | (some err, s') =>
      ({ st.1 with errors := st.1.errors ++
          ["Failed to import ".toList ++ fileHeader.Filename ++ ": ".toList ++ err] }, s')
    | (none, s') =>
      ({ st.1 with
          results := st.1.results ++
            ["✓ ".toList ++ fileHeader.Filename ++ ": ".toList ++ FormatInt lines.length ++
              " lines imported (service: ".toList ++ serviceName ++ ")".toList],
          totalLines := st.1.totalLines + lines.length }, s')

/-- The file handler's loop over all uploaded files. -/
def processFiles {σ : Type} (W : World σ) (s : σ) (lokiURL : GoString)
    (files : List FileHeader) : UploadAcc × σ :=
  files.foldl (uploadStep W lokiURL) (⟨[], [], 0⟩, s)

/-- Lines 159-172: the response written from the final `results`, `errors` and
`totalLines`. -/
def uploadReport (nFiles : Nat) (acc : UploadAcc) : Response :=
  if 0 < acc.errors.length ∧ acc.results.length = 0 then
    httpError (Join acc.errors ['\n']) StatusBadRequest
  else
    ⟨StatusOK,
      "Processed ".toList ++ FormatInt nFiles ++ " file(s), imported ".toList ++
        FormatInt acc.totalLines ++ " total lines\n\n".toList ++
        (if 0 < acc.results.length then "SUCCESS:\n".toList ++ Join acc.results ['\n'] else []) ++
        (if 0 < acc.errors.length then "\n\nERRORS:\n".toList ++ Join acc.errors ['\n'] else [])⟩

/-- The `/api/upload-files` handler for a POST request whose form was parsed,
on the files of the field `files`. -/
def uploadFiles {σ : Type} (W : World σ) (s : σ) (lokiURL : GoString)
    (files : List FileHeader) : Response × σ :=
  if files.length = 0 then (httpError "No files provided".toList StatusBadRequest, s)
  else
    let r := processFiles W s lokiURL files
    (uploadReport files.length r.1, r.2)

/-! ## A simulated backend -/

/-- A world for concrete runs: the clock stands at the instant `t`, the backend
answers every push with `status` and `body`, and the state is the list of the
requests posted so far, each with its URL. -/
def simulatedWorld (t : Int) (status : Int) (body : GoString) :
    World (List (GoString × LokiRequest)) :=
  { now := fun s => (t, s)
    post := fun s url req => (.ok (status, body), s ++ [(url, req)]) }

/-- Three uploaded files: the first and the third declare a service name and
hold log lines, the second has no declaration. -/
def exampleUpload : List FileHeader :=
  [⟨"api.log".toList, .ok "service_name: api\nGET /x\nPOST /y\n".toList⟩,
   ⟨"worker.log".toList, .ok "INFO started\nINFO done\n".toList⟩,
   ⟨"db.log".toList, .ok "service_name: db\r\n  connected  \r\n".toList⟩]

/-! ## Specification-side notions -/

/-- The trimmed non-blank lines of a list of lines, in their original order. -/
def trimmedNonBlank (lines : List GoString) : List GoString :=
  (lines.map TrimSpace).filter (fun l => l ≠ [])

/-- The `LogBatch` invariant on the arguments of `sendLogsToLoki`: a non-empty
service name, at least one line, and every line non-empty and equal to its own
trimmed form. -/
def ValidBatch (lines : List GoString) (serviceName : GoString) : Prop :=
  serviceName ≠ [] ∧ lines ≠ [] ∧ ∀ l ∈ lines, l ≠ [] ∧ TrimSpace l = l

theorem TrimSpace_eq_nil_iff (s : GoString) : TrimSpace s = [] ↔ ∀ c ∈ s, isSpace c = true := by
  unfold TrimSpace
  rw [List.rdropWhile_eq_nil_iff]
  constructor
  · intro h
    have h2 : s.dropWhile isSpace = [] := by
      by_contra hne
      have hh := List.head_dropWhile_not isSpace s hne
      rw [h _ (List.head_mem hne)] at hh
      exact Bool.noConfusion hh
    exact List.dropWhile_eq_nil_iff.mp h2
  · intro h c hc
    exact h c ((List.dropWhile_suffix isSpace).subset hc)

theorem rdropWhile_cons_of_not {p : Char → Bool} (x : Char) (l : List Char) (hx : ¬ p x = true) :
    ∃ r, (x :: l).rdropWhile p = x :: r := by
  have hpre : (x :: l).rdropWhile p <+: x :: l := List.rdropWhile_prefix p _
  have hne : (x :: l).rdropWhile p ≠ [] := by
    intro h0
    exact hx (List.rdropWhile_eq_nil_iff.mp h0 x (by simp))
  obtain ⟨t, ht⟩ := hpre
  cases hr : (x :: l).rdropWhile p with
  | nil => exact absurd hr hne
  | cons a r =>
    rw [hr] at ht
    simp only [List.cons_append, List.cons.injEq] at ht
    exact ⟨r, by rw [ht.1]⟩

theorem rdropWhile_append_of_all {p : Char → Bool} (a w : List Char) (hw : ∀ c ∈ w, p c = true) :
    (a ++ w).rdropWhile p = a.rdropWhile p := by
  induction w using List.reverseRecOn with
  | nil => simp
  | append_singleton w x ih =>
    rw [← List.append_assoc, List.rdropWhile_concat_pos _ _ _ (hw x (by simp))]
    exact ih (fun c hc => hw c (by simp [hc]))

theorem rdropWhile_append_of_ne_nil {p : Char → Bool} (a b : List Char)
    (hb : b.rdropWhile p ≠ []) : (a ++ b).rdropWhile p = a ++ b.rdropWhile p := by
  induction b using List.reverseRecOn with
  | nil => simp at hb
  | append_singleton b x ih =>
    by_cases hx : p x = true
    · rw [List.rdropWhile_concat_pos _ _ _ hx] at hb ⊢
      rw [← List.append_assoc, List.rdropWhile_concat_pos _ _ _ hx]
      exact ih hb
    · rw [List.rdropWhile_concat_neg _ _ _ hx]
      rw [← List.append_assoc, List.rdropWhile_concat_neg _ _ _ hx]

theorem dropWhile_append_of_all {p : Char → Bool} (w a : List Char) (hw : ∀ c ∈ w, p c = true) :
    (w ++ a).dropWhile p = a.dropWhile p := by
  induction w with
  | nil => rfl
  | cons x w ih =>
    simp only [List.cons_append, List.dropWhile_cons, hw x (by simp), if_true]
    exact ih (fun c hc => hw c (by simp [hc]))

theorem TrimSpace_append_left (w s : GoString) (hw : ∀ c ∈ w, isSpace c = true) :
    TrimSpace (w ++ s) = TrimSpace s := by
  unfold TrimSpace
  rw [dropWhile_append_of_all w s hw]

theorem dropWhile_append_of_ne_nil {p : Char → Bool} (a b : List Char)
    (ha : a.dropWhile p ≠ []) : (a ++ b).dropWhile p = a.dropWhile p ++ b := by
  induction a with
  | nil => simp at ha
  | cons x a ih =>
    by_cases hx : p x = true
    · simp only [List.cons_append, List.dropWhile_cons, hx, if_true] at ha ⊢
      exact ih ha
    · simp [List.dropWhile_cons, hx]

theorem TrimSpace_append_right (s w : GoString) (hw : ∀ c ∈ w, isSpace c = true) :
    TrimSpace (s ++ w) = TrimSpace s := by
  unfold TrimSpace
  by_cases hs : s.dropWhile isSpace = []
  · have hall : ∀ c ∈ s ++ w, isSpace c = true := by
      intro c hc
      rcases List.mem_append.mp hc with h | h
      · exact List.dropWhile_eq_nil_iff.mp hs c h
      · exact hw c h
    rw [List.dropWhile_eq_nil_iff.mpr hall, hs]
  · rw [dropWhile_append_of_ne_nil s w hs, rdropWhile_append_of_all _ w hw]

theorem TrimSpace_idem (s : GoString) : TrimSpace (TrimSpace s) = TrimSpace s := by
  cases hd : s.dropWhile isSpace with
  | nil => simp [TrimSpace, hd]
  | cons x d =>
    have hx : ¬ isSpace x = true := by
      have h1 := List.head_dropWhile_not isSpace s (by rw [hd]; simp)
      simp only [hd, List.head_cons] at h1
      simp [h1]
    obtain ⟨r, hr⟩ := rdropWhile_cons_of_not (p := isSpace) x d hx
    have hT : TrimSpace s = x :: r := by unfold TrimSpace; rw [hd, hr]
    rw [hT]
    unfold TrimSpace
    have : (x :: r).dropWhile isSpace = x :: r := by simp [List.dropWhile_cons, hx]
    rw [this, ← hr]
    exact List.rdropWhile_idempotent isSpace _

theorem TrimSpace_dropCR (s : GoString) : TrimSpace (dropCR s) = TrimSpace s := by
  unfold dropCR
  split
  · rename_i h
    have hne : s ≠ [] := by rintro rfl; simp at h
    have hs : s = s.dropLast ++ ['\r'] := by
      have := List.dropLast_append_getLast hne
      rw [List.getLast?_eq_getLast _ hne] at h
      simp only [Option.some.injEq] at h
      rw [h] at this
      exact this.symm
    conv_rhs => rw [hs]
    rw [TrimSpace_append_right _ _ (by simp [isSpace])]
  · rfl

/-! ## Facts about splitting into lines -/

theorem Split_ne_nil (sep : Char) (s : GoString) : Split sep s ≠ [] := by
  induction s with
  | nil => simp [Split]
  | cons c cs ih =>
    unfold Split
    split
    · simp
    · cases h : Split sep cs with
      | nil => exact absurd h ih
      | cons p ps => simp

theorem Split_of_not_mem (sep : Char) (l : GoString) (h : sep ∉ l) : Split sep l = [l] := by
  induction l with
  | nil => rfl
  | cons c cs ih =>
    have hc : c ≠ sep := fun e => h (by simp [e])
    have hcs : sep ∉ cs := fun e => h (by simp [e])
    simp [Split, hc, ih hcs]

theorem Split_append_sep (sep : Char) (l rest : GoString) (h : sep ∉ l) :
    Split sep (l ++ sep :: rest) = l :: Split sep rest := by
  induction l with
  | nil => simp [Split]
  | cons c cs ih =>
    have hc : c ≠ sep := fun e => h (by simp [e])
    have hcs : sep ∉ cs := fun e => h (by simp [e])
    simp [Split, hc, ih hcs]

/-- Splitting the newline-joined text of lines that hold no newline gives the
lines back. -/
theorem Split_Join (sep : Char) (l : GoString) (ls : List GoString)
    (h : ∀ x ∈ l :: ls, sep ∉ x) : Split sep (Join (l :: ls) [sep]) = l :: ls := by
  induction ls generalizing l with
  | nil =>
    simp only [Join, List.intercalate, List.intersperse, List.flatten, List.append_nil]
    exact Split_of_not_mem sep l (h l (by simp))
  | cons m ms ih =>
    have e : Join (l :: m :: ms) [sep] = l ++ sep :: Join (m :: ms) [sep] := by
      simp [Join, List.intercalate, List.intersperse]
    rw [e, Split_append_sep sep l _ (h l (by simp)), ih m (fun x hx => h x (by simp [hx]))]

theorem rawLines_eq_nil_iff (s : GoString) : rawLines s = [] ↔ s = [] := by
  cases s with
  | nil => simp [rawLines]
  | cons c cs =>
    simp only [rawLines]
    split
    · simp
    · cases rawLines cs <;> simp

/-- The pieces of `strings.Split` on newline are the raw lines of the scanner,
followed by one empty piece when the text is empty or ends in a newline. -/
theorem Split_eq_rawLines (s : GoString) :
    Split '\n' s = rawLines s ∨ Split '\n' s = rawLines s ++ [[]] := by
  induction s with
  | nil => right; rfl
  | cons c cs ih =>
    by_cases hc : c = '\n'
    · rcases ih with h | h
      · left; simp [Split, rawLines, hc, h]
      · right; simp [Split, rawLines, hc, h]
    · rcases ih with h | h
      · left; simp only [Split, rawLines, hc, if_false, h]
      · by_cases hr : rawLines cs = []
        · left
          simp only [Split, rawLines, hc, if_false, h, hr]
          rfl
        · right
          obtain ⟨r, rs, hrs⟩ := List.exists_cons_of_ne_nil hr
          simp only [Split, rawLines, hc, if_false, h, hrs]
          rfl

/-! ## The collecting loops in closed form -/

theorem collectValid_foldl (lines acc : List GoString) :
    lines.foldl (fun validLines line =>
      if TrimSpace line ≠ [] then validLines ++ [TrimSpace line] else validLines) acc
      = acc ++ trimmedNonBlank lines := by
  induction lines generalizing acc with
  | nil => simp [trimmedNonBlank]
  | cons l ls ih =>
    simp only [List.foldl_cons, ih]
    by_cases h : TrimSpace l = []
    · simp [trimmedNonBlank, h]
    · simp [trimmedNonBlank, h]

theorem collectValid_eq (lines : List GoString) : collectValid lines = trimmedNonBlank lines := by
  unfold collectValid
  rw [collectValid_foldl]
  simp

theorem trimmedNonBlank_of_nonblank (lines : List GoString)
    (h : ∀ l ∈ lines, TrimSpace l ≠ []) : trimmedNonBlank lines = lines.map TrimSpace := by
  unfold trimmedNonBlank
  rw [List.filter_eq_self]
  intro a ha
  obtain ⟨l, hl, rfl⟩ := List.mem_map.mp ha
  simpa using h l hl

theorem trimmedNonBlank_of_blank (lines : List GoString)
    (h : ∀ l ∈ lines, TrimSpace l = []) : trimmedNonBlank lines = [] := by
  unfold trimmedNonBlank
  rw [List.filter_eq_nil_iff]
  intro a ha
  obtain ⟨l, hl, rfl⟩ := List.mem_map.mp ha
  simp [h l hl]

theorem trimmedNonBlank_append (a b : List GoString) :
    trimmedNonBlank (a ++ b) = trimmedNonBlank a ++ trimmedNonBlank b := by
  simp [trimmedNonBlank]

theorem scanText_of_lt (raw : GoString) (h : byteLen raw < MaxScanTokenSize) :
    scanText raw = some (dropCR raw) := by
  unfold scanText
  rw [if_neg (by omega)]

theorem scanRest_eq (rest acc : List GoString)
    (h : ∀ l ∈ rest, byteLen l < MaxScanTokenSize) :
    scanRest rest acc = (acc ++ trimmedNonBlank rest, none) := by
  induction rest generalizing acc with
  | nil => simp [scanRest, trimmedNonBlank]
  | cons r rs ih =>
    have hr := scanText_of_lt r (h r (by simp))
    have hrs : ∀ l ∈ rs, byteLen l < MaxScanTokenSize := fun l hl => h l (by simp [hl])
    simp only [scanRest, hr, TrimSpace_dropCR]
    by_cases hb : TrimSpace r = []
    · simp [hb, ih _ hrs, trimmedNonBlank]
    · simp [hb, ih _ hrs, trimmedNonBlank]

/-! ## Decimal rendering -/

theorem digitChar_isDigit (d : Nat) : (digitChar d).isDigit = true := by
  unfold digitChar
  have h : d % 10 < 10 := Nat.mod_lt _ (by decide)
  generalize d % 10 = k at h
  interval_cases k <;> decide

theorem digitChar_toNat (d : Nat) : (digitChar d).toNat - 48 = d % 10 := by
  unfold digitChar
  have h : d % 10 < 10 := Nat.mod_lt _ (by decide)
  generalize d % 10 = k at h
  interval_cases k <;> decide

theorem digitChar_ne_minus (d : Nat) : digitChar d ≠ '-' := by
  intro h
  have := digitChar_isDigit d
  rw [h] at this
  exact absurd this (by decide)

theorem natDigits_ne_nil (fuel u : Nat) : natDigits fuel u ≠ [] := by
  cases fuel with
  | zero => simp [natDigits]
  | succ f =>
    unfold natDigits
    split <;> simp

theorem natDigits_all (fuel u : Nat) : (natDigits fuel u).all Char.isDigit = true := by
  induction fuel generalizing u with
  | zero => simp [natDigits, digitChar_isDigit]
  | succ f ih =>
    unfold natDigits
    split
    · simp [digitChar_isDigit]
    · rw [List.all_append, ih]
      simp [digitChar_isDigit]

theorem natDigits_value (fuel u : Nat) (h : u ≤ fuel) :
    (natDigits fuel u).foldl (fun acc c => acc * 10 + (c.toNat - 48)) 0 = u := by
  induction fuel generalizing u with
  | zero =>
    have : u = 0 := by omega
    subst this
    decide
  | succ f ih =>
    unfold natDigits
    split
    · rename_i hlt
      simp only [List.foldl_cons, List.foldl_nil, digitChar_toNat]
      omega
    · rename_i hge
      rw [List.foldl_append, ih (u / 10) (by omega)]
      simp only [List.foldl_cons, List.foldl_nil, digitChar_toNat]
      omega

theorem natDigits_head_ne_minus (fuel u : Nat) : ∀ ds, natDigits fuel u ≠ '-' :: ds := by
  intro ds h
  have hall := natDigits_all fuel u
  rw [h] at hall
  simp at hall

theorem readDigits_natDigits (u : Nat) : readDigits (natDigits u u) = some u := by
  unfold readDigits
  rw [if_pos ⟨natDigits_ne_nil u u, natDigits_all u u⟩, natDigits_value u u (le_refl u)]

/-- Reading back a rendered integer gives the integer. -/
theorem readInt_FormatInt (x : Int) : readInt (FormatInt x) = some x := by
  unfold FormatInt
  split
  · rename_i hneg
    simp only [readInt, readDigits_natDigits]
    rw [Int.ofNat_eq_coe, Int.ofNat_natAbs_of_nonpos (le_of_lt hneg), neg_neg]
  · rename_i hpos
    unfold readInt
    split
    · rename_i ds heq
      exact absurd heq (natDigits_head_ne_minus _ _ ds)
    · rw [readDigits_natDigits]
      show some ((x.toNat : Int)) = some x
      rw [Int.toNat_of_nonneg (by omega)]

theorem FormatInt_injective (x y : Int) (h : FormatInt x = FormatInt y) : x = y := by
  have hx := readInt_FormatInt x
  rw [h, readInt_FormatInt] at hx
  exact (Option.some.inj hx).symm

/-! ## The 64-bit clock arithmetic -/

theorem wrapInt64_of_mem (x : Int) (h1 : -2 ^ 63 ≤ x) (h2 : x < 2 ^ 63) : wrapInt64 x = x := by
  unfold wrapInt64
  rw [Int.emod_eq_of_lt (by omega) (by omega)]
  omega

theorem wrapInt64_add_wrap (a b : Int) : wrapInt64 (a + wrapInt64 b) = wrapInt64 (a + b) := by
  unfold wrapInt64
  have e : a + ((b + 2 ^ 63) % 2 ^ 64 - 2 ^ 63) + 2 ^ 63 = a + (b + 2 ^ 63) % 2 ^ 64 := by ring
  rw [e, Int.add_emod, Int.emod_emod, ← Int.add_emod]
  congr 2
  ring

theorem wrapInt64_mul_wrap (a b : Int) : wrapInt64 (wrapInt64 a * b) = wrapInt64 (a * b) := by
  unfold wrapInt64
  have e : ((a + 2 ^ 63) % 2 ^ 64 - 2 ^ 63) * b + 2 ^ 63
      = (a + 2 ^ 63) % 2 ^ 64 * b + (2 ^ 63 - 2 ^ 63 * b) := by ring
  have e2 : a * b + 2 ^ 63 = (a + 2 ^ 63) * b + (2 ^ 63 - 2 ^ 63 * b) := by ring
  rw [e, e2, Int.add_emod, Int.mul_emod, Int.emod_emod, ← Int.mul_emod, ← Int.add_emod]

/-- Without 64-bit overflow the timestamp of index `i` is the instant plus `i`
microseconds. -/
theorem unixNanoAfter_eq (now : Int) (i : Nat) (h1 : -2 ^ 63 ≤ now + 1000 * i)
    (h2 : now + 1000 * i < 2 ^ 63) : unixNanoAfter now i = now + 1000 * i := by
  unfold unixNanoAfter Microsecond
  rw [wrapInt64_add_wrap, ← wrapInt64_add_wrap now (wrapInt64 _ * 1000), wrapInt64_mul_wrap,
    wrapInt64_add_wrap, mul_comm (i : Int) 1000]
  exact wrapInt64_of_mem _ h1 h2

/-! ## The first line -/

theorem serviceNameTag_eq :
    serviceNameTag = ['s', 'e', 'r', 'v', 'i', 'c', 'e', '_', 'n', 'a', 'm', 'e', ':'] := by
  decide

theorem HasPrefix_iff (s p : GoString) : HasPrefix s p = true ↔ ∃ t, s = p ++ t := by
  unfold HasPrefix
  rw [List.isPrefixOf_iff_prefix]
  constructor
  · rintro ⟨t, ht⟩; exact ⟨t, ht.symm⟩
  · rintro ⟨t, ht⟩; exact ⟨t, ht.symm⟩

theorem declaredName_tag_append (y : GoString) :
    declaredName (serviceNameTag ++ y) = TrimSpace y := by
  rw [serviceNameTag_eq]
  simp [declaredName, SplitN2, cutFirst]

/-- A line that carries the tag is the tag followed by the rest of the line, and
the declared name is that rest, trimmed. -/
theorem declaredName_of_HasPrefix (l : GoString) (h : HasPrefix l serviceNameTag = true) :
    declaredName l = TrimSpace (l.drop serviceNameTag.length) := by
  obtain ⟨t, rfl⟩ := (HasPrefix_iff _ _).mp h
  rw [declaredName_tag_append, List.drop_left]

theorem TrimSpace_rdropWhile (y : GoString) :
    TrimSpace (y.rdropWhile isSpace) = TrimSpace y := by
  induction y using List.reverseRecOn with
  | nil => rfl
  | append_singleton y x ih =>
    by_cases hx : isSpace x = true
    · rw [List.rdropWhile_concat_pos _ _ _ hx, ih,
        TrimSpace_append_right y [x] (by simpa using hx)]
    · rw [List.rdropWhile_concat_neg _ _ _ hx]

theorem TrimSpace_tag_append (y : GoString) :
    TrimSpace (serviceNameTag ++ y) = serviceNameTag ++ y.rdropWhile isSpace := by
  have hd : (serviceNameTag ++ y).dropWhile isSpace = serviceNameTag ++ y := by
    have hs : isSpace 's' = false := by decide
    rw [serviceNameTag_eq]
    simp only [List.cons_append, List.dropWhile_cons, hs]
    rfl
  unfold TrimSpace
  rw [hd]
  by_cases hy : y.rdropWhile isSpace = []
  · rw [rdropWhile_append_of_all _ _ (List.rdropWhile_eq_nil_iff.mp hy), hy, List.append_nil]
    have hlast : serviceNameTag =
        ['s', 'e', 'r', 'v', 'i', 'c', 'e', '_', 'n', 'a', 'm', 'e'] ++ [':'] := by decide
    rw [hlast]
    exact List.rdropWhile_concat_neg _ _ _ (by decide)
  · exact rdropWhile_append_of_ne_nil _ _ hy

/-- The header step of the text handler on a first line `service_name:` followed
by `y`: the name is `y` trimmed and the first line is removed. -/
theorem textHeader_tag (y : GoString) (rest : List GoString) :
    textHeader ((serviceNameTag ++ y) :: rest) = (TrimSpace y, rest) := by
  have hp : HasPrefix (TrimSpace (serviceNameTag ++ y)) serviceNameTag = true := by
    rw [TrimSpace_tag_append]
    exact (HasPrefix_iff _ _).mpr ⟨_, rfl⟩
  simp only [textHeader, hp, if_true]
  rw [TrimSpace_tag_append, declaredName_tag_append, TrimSpace_rdropWhile]

theorem Join_ne_nil_of_head (l : GoString) (ls : List GoString) (h : l ≠ []) :
    Join (l :: ls) ['\n'] ≠ [] := by
  cases ls with
  | nil => simpa [Join, List.intercalate, List.intersperse] using h
  | cons m ms => simp [Join, List.intercalate, List.intersperse, h]

theorem takeWhile_eq_head_Split (s : GoString) :
    (Split '\n' s).headD [] = s.takeWhile (fun c => c ≠ '\n') := by
  induction s with
  | nil => rfl
  | cons c cs ih =>
    by_cases hc : c = '\n'
    · simp [Split, hc]
    · simp only [Split, hc, if_false, List.takeWhile_cons]
      cases h : Split '\n' cs with
      | nil => exact absurd h (Split_ne_nil _ _)
      | cons p ps =>
        rw [h] at ih
        simp only [List.headD_cons] at ih ⊢
        simp [hc, ih]

/-! ## The text handler -/

theorem textNormalize_tag (y : GoString) (rest : List GoString)
    (hy : '\n' ∉ y) (hname : TrimSpace y ≠ []) (hrest : ∀ l ∈ rest, '\n' ∉ l) :
    textNormalize (Join ((serviceNameTag ++ y) :: rest) ['\n'])
      = .ok (trimmedNonBlank rest, TrimSpace y) := by
  have hne : Join ((serviceNameTag ++ y) :: rest) ['\n'] ≠ [] :=
    Join_ne_nil_of_head _ _ (by rw [serviceNameTag_eq]; simp)
  have hsplit : Split '\n' (Join ((serviceNameTag ++ y) :: rest) ['\n'])
      = (serviceNameTag ++ y) :: rest := by
    apply Split_Join
    intro x hx
    rcases List.mem_cons.mp hx with h | h
    · rw [h, serviceNameTag_eq]
      intro hm
      rcases List.mem_append.mp hm with h1 | h1
      · revert h1; decide
      · exact hy h1
    · exact hrest x h
  unfold textNormalize
  rw [if_neg hne, hsplit, textHeader_tag]
  simp only [hname, if_false, collectValid_eq]

/-- C1 (amended). For every text blob whose first line is `service_name:`
followed by `X` with any amount of white space around `X`, where `X` is not
blank, and whose remaining lines are non-blank, the text handler computes
`serviceName` equal to `X` trimmed and `validLines` equal to the remaining
lines, each trimmed, in their original order; with at least one remaining line
these are the arguments it passes on to `sendLogsToLoki`. -/
theorem text_normalizer_yields_name_and_lines (ws1 X ws2 : GoString) (rest : List GoString)
    (hws1 : ∀ c ∈ ws1, isSpace c = true) (hws2 : ∀ c ∈ ws2, isSpace c = true)
    (hline : '\n' ∉ ws1 ++ X ++ ws2)
    (hX : TrimSpace X ≠ [])
    (hrest : ∀ l ∈ rest, '\n' ∉ l ∧ TrimSpace l ≠ []) :
    textNormalize (Join ((serviceNameTag ++ (ws1 ++ X ++ ws2)) :: rest) ['\n'])
        = .ok (rest.map TrimSpace, TrimSpace X)
      ∧ (rest ≠ [] →
          textPrepare (Join ((serviceNameTag ++ (ws1 ++ X ++ ws2)) :: rest) ['\n'])
            = .ok (rest.map TrimSpace, TrimSpace X)) := by
  have hY : TrimSpace (ws1 ++ X ++ ws2) = TrimSpace X := by
    rw [TrimSpace_append_right _ _ hws2, TrimSpace_append_left _ _ hws1]
  have hN := textNormalize_tag (ws1 ++ X ++ ws2) rest hline (by rw [hY]; exact hX)
    (fun l hl => (hrest l hl).1)
  rw [hY, trimmedNonBlank_of_nonblank rest (fun l hl => (hrest l hl).2)] at hN
  refine ⟨hN, fun hne => ?_⟩
  unfold textPrepare
  rw [hN]
  have hlen : ¬ (rest.map TrimSpace).length = 0 := by
    rw [List.length_map]
    exact fun h => hne (List.length_eq_zero.mp h)
  simp only [hlen, if_false]

theorem text_normalizer_yields_name_and_lines_witness :
    textNormalize (Join ((serviceNameTag ++ ([' ', '\t'] ++ "my app".toList ++ [' ', '\r'])) ::
        ["first line".toList, "  second line \r".toList]) ['\n'])
        = .ok (["first line".toList, "  second line \r".toList].map TrimSpace,
            TrimSpace "my app".toList)
      ∧ (["first line".toList, "  second line \r".toList] ≠ [] →
          textPrepare (Join ((serviceNameTag ++ ([' ', '\t'] ++ "my app".toList ++ [' ', '\r'])) ::
            ["first line".toList, "  second line \r".toList]) ['\n'])
            = .ok (["first line".toList, "  second line \r".toList].map TrimSpace,
                TrimSpace "my app".toList)) :=
  text_normalizer_yields_name_and_lines [' ', '\t'] "my app".toList [' ', '\r']
    ["first line".toList, "  second line \r".toList]
    (by decide) (by decide) (by decide) (by decide) (by decide)

/-- C1 as stated fails when `X` is blank: for the blob `"service_name: \nhello"`
(white space around an empty `X`, one non-blank remaining line) the handler
answers with the missing-service-name error and computes no `validLines`. -/
theorem text_normalizer_blank_name_counterexample :
    (∀ c ∈ [' '], isSpace c = true) ∧ '\n' ∉ ([' '] ++ ([] : GoString) ++ []) ∧
    (∀ l ∈ ["hello".toList], '\n' ∉ l ∧ TrimSpace l ≠ []) ∧
    Join ((serviceNameTag ++ ([' '] ++ [] ++ [])) :: ["hello".toList]) ['\n']
      = "service_name: \nhello".toList ∧
    textNormalize (Join ((serviceNameTag ++ ([' '] ++ [] ++ [])) :: ["hello".toList]) ['\n'])
      = .error (httpError msgMissingServiceName StatusBadRequest) ∧
    textNormalize (Join ((serviceNameTag ++ ([' '] ++ [] ++ [])) :: ["hello".toList]) ['\n'])
      ≠ .ok (["hello".toList].map TrimSpace, TrimSpace []) := by
  refine ⟨by decide, by decide, by decide, by decide, by rfl, ?_⟩
  have h : textNormalize (Join ((serviceNameTag ++ ([' '] ++ [] ++ [])) :: ["hello".toList]) ['\n'])
      = .error (httpError msgMissingServiceName StatusBadRequest) := by rfl
  rw [h]
  exact fun e => Except.noConfusion e

theorem firstLine_not_tag (logText : GoString)
    (hfirst : HasPrefix (TrimSpace (logText.takeWhile (fun c => c ≠ '\n'))) serviceNameTag = false) :
    (textHeader (Split '\n' logText)).1 = [] := by
  have hh := takeWhile_eq_head_Split logText
  cases hs : Split '\n' logText with
  | nil => rfl
  | cons l0 rest =>
    rw [hs] at hh
    simp only [List.headD_cons] at hh
    simp only [textHeader, hh, hfirst]
    rfl

/-- C2 (amended). For every non-empty text blob whose first line, trimmed, does
not start with `service_name:`, whatever the rest of the blob, the text endpoint
answers with the missing-service-name client error, and the world is left as it
was (nothing is sent). -/
theorem text_without_declaration_is_rejected {σ : Type} (W : World σ) (s : σ)
    (lokiURL logText : GoString) (hne : logText ≠ [])
    (hfirst : HasPrefix (TrimSpace (logText.takeWhile (fun c => c ≠ '\n'))) serviceNameTag = false) :
    importText W s lokiURL logText = (httpError msgMissingServiceName StatusBadRequest, s) := by
  have h := firstLine_not_tag logText hfirst
  simp only [importText, textPrepare, textNormalize, hne, h, if_true, if_false]

theorem text_without_declaration_is_rejected_witness :
    importText (simulatedWorld 0 204 []) [] "http://loki".toList
        "INFO started\nservice_name: late\nINFO more".toList
      = (httpError msgMissingServiceName StatusBadRequest, []) :=
  text_without_declaration_is_rejected (simulatedWorld 0 204 []) [] "http://loki".toList
    "INFO started\nservice_name: late\nINFO more".toList (by decide) (by decide)

/-- C2 as stated fails on the empty blob: its first line is not a declaration,
yet the endpoint answers with the no-log-text error, not with the
missing-service-name error. -/
theorem empty_text_counterexample :
    HasPrefix (TrimSpace (([] : GoString).takeWhile (fun c => c ≠ '\n'))) serviceNameTag = false ∧
    (importText (simulatedWorld 0 204 []) [] "http://loki".toList []).1
      = httpError msgNoLogText StatusBadRequest ∧
    (importText (simulatedWorld 0 204 []) [] "http://loki".toList []).1
      ≠ httpError msgMissingServiceName StatusBadRequest := by
  refine ⟨by decide, by rfl, by decide⟩

/-- C3 (amended). For every text blob whose first line is a `service_name:`
declaration with a non-blank name and all of whose other lines are empty or
white space, the text endpoint answers with the no-valid-lines client error,
and the world is left as it was (nothing is sent to the backend). -/
theorem text_with_only_declaration_is_rejected {σ : Type} (W : World σ) (s : σ)
    (lokiURL first : GoString) (rest : List GoString)
    (hnl : '\n' ∉ first)
    (htag : HasPrefix (TrimSpace first) serviceNameTag = true)
    (hname : TrimSpace ((TrimSpace first).drop serviceNameTag.length) ≠ [])
    (hrest : ∀ l ∈ rest, '\n' ∉ l ∧ TrimSpace l = []) :
    importText W s lokiURL (Join (first :: rest) ['\n'])
      = (httpError msgNoValidLines StatusBadRequest, s) := by
  have hfne : first ≠ [] := by
    rintro rfl
    revert htag
    decide
  have hne : Join (first :: rest) ['\n'] ≠ [] := Join_ne_nil_of_head _ _ hfne
  have hsplit : Split '\n' (Join (first :: rest) ['\n']) = first :: rest := by
    apply Split_Join
    intro x hx
    rcases List.mem_cons.mp hx with h | h
    · rw [h]; exact hnl
    · exact (hrest x h).1
  have hd := declaredName_of_HasPrefix _ htag
  have hv : collectValid rest = [] := by
    rw [collectValid_eq]
    exact trimmedNonBlank_of_blank rest (fun l hl => (hrest l hl).2)
  simp only [importText, textPrepare, textNormalize, hne, if_false, hsplit, textHeader, htag,
    if_true, hd, hname, hv, List.length_nil]

theorem text_with_only_declaration_is_rejected_witness :
    importText (simulatedWorld 0 204 []) [] "http://loki".toList
        (Join ("  service_name: billing\r".toList :: ["".toList, " \t".toList, "\r".toList]) ['\n'])
      = (httpError msgNoValidLines StatusBadRequest, []) :=
  text_with_only_declaration_is_rejected (simulatedWorld 0 204 []) [] "http://loki".toList
    "  service_name: billing\r".toList ["".toList, " \t".toList, "\r".toList]
    (by decide) (by decide) (by decide) (by decide)

/-- C3 as stated fails when a blank line comes before the declaration: in
`"\nservice_name: billing"` the declaration is the only non-blank line, yet the
endpoint answers with the missing-service-name error, not with the
no-valid-lines error. -/
theorem blank_line_before_declaration_counterexample :
    trimmedNonBlank (Split '\n' "\nservice_name: billing".toList)
      = ["service_name: billing".toList] ∧
    (importText (simulatedWorld 0 204 []) [] "http://loki".toList
        "\nservice_name: billing".toList).1
      = httpError msgMissingServiceName StatusBadRequest ∧
    (importText (simulatedWorld 0 204 []) [] "http://loki".toList
        "\nservice_name: billing".toList).1
      ≠ httpError msgNoValidLines StatusBadRequest := by
  refine ⟨by decide, by rfl, by decide⟩

/-! ## Reading a file -/

theorem mem_trimmedNonBlank (lines : List GoString) (x : GoString)
    (hx : x ∈ trimmedNonBlank lines) : x ≠ [] ∧ TrimSpace x = x := by
  unfold trimmedNonBlank at hx
  obtain ⟨hm, hne⟩ := List.mem_filter.mp hx
  obtain ⟨l, _, rfl⟩ := List.mem_map.mp hm
  exact ⟨by simpa using hne, TrimSpace_idem l⟩

theorem scanRest_mem (rest acc : List GoString) (x : GoString)
    (hx : x ∈ (scanRest rest acc).1) : x ∈ acc ∨ (x ≠ [] ∧ TrimSpace x = x) := by
  induction rest generalizing acc with
  | nil => left; simpa [scanRest] using hx
  | cons r rs ih =>
    unfold scanRest at hx
    cases hs : scanText r with
    | none => rw [hs] at hx; left; simpa using hx
    | some text =>
      rw [hs] at hx
      simp only at hx
      by_cases hb : TrimSpace text = []
      · simp only [hb, ne_eq, not_true_eq_false, if_false] at hx
        exact ih acc hx
      · simp only [hb, ne_eq, not_false_eq_true, if_true] at hx
        rcases ih _ hx with h | h
        · rcases List.mem_append.mp h with h1 | h1
          · left; exact h1
          · right
            rw [List.mem_singleton.mp h1]
            exact ⟨hb, TrimSpace_idem text⟩
        · right; exact h

/-- The result of `readFromFileWithServiceName` in closed form, for a file all of
whose raw lines fit the scanner's buffer. -/
theorem readFromFile_cons (file first : GoString) (rest : List GoString)
    (hraw : rawLines file = first :: rest)
    (hlim : ∀ l ∈ rawLines file, byteLen l < MaxScanTokenSize) :
    readFromFileWithServiceName file =
      if HasPrefix (TrimSpace first) serviceNameTag = true then
        (trimmedNonBlank rest, declaredName (TrimSpace first), none)
      else (trimmedNonBlank (first :: rest), [], none) := by
  rw [hraw] at hlim
  have h0 := scanText_of_lt first (hlim first (by simp))
  have hr : ∀ l ∈ rest, byteLen l < MaxScanTokenSize := fun l hl => hlim l (by simp [hl])
  unfold readFromFileWithServiceName
  simp only [hraw, h0, TrimSpace_dropCR]
  by_cases ht : HasPrefix (TrimSpace first) serviceNameTag = true
  · simp only [ht, if_true, scanRest_eq rest [] hr, List.nil_append]
  · simp only [ht, if_false, scanRest_eq rest _ hr]
    by_cases hb : TrimSpace first = []
    · simp [hb, trimmedNonBlank]
    · simp [hb, trimmedNonBlank]

/-- C8. For every byte stream all of whose lines fit the scanner's token limit:
when the trimmed first line does not start with `service_name:`, the first line
is log content, that is, the returned service name is empty and the returned
lines are all lines of the stream, the first included, each trimmed, blank ones
dropped, in their original order; when it does start with `service_name:`, the
returned service name is the trimmed text after that first colon and the
returned lines are the trimmed non-blank lines after the first one, in their
original order. No error is returned, and an empty stream gives no lines and
an empty service name. -/
theorem file_normalizer_first_line (file : GoString)
    (hlim : ∀ l ∈ rawLines file, byteLen l < MaxScanTokenSize) :
    (rawLines file = [] → readFromFileWithServiceName file = ([], [], none)) ∧
    (∀ first rest, rawLines file = first :: rest →
      (HasPrefix (TrimSpace first) serviceNameTag = false →
        readFromFileWithServiceName file
          = (((first :: rest).map TrimSpace).filter (fun l => l ≠ []), [], none)) ∧
      (HasPrefix (TrimSpace first) serviceNameTag = true →
        readFromFileWithServiceName file
          = ((rest.map TrimSpace).filter (fun l => l ≠ []),
              TrimSpace ((TrimSpace first).drop serviceNameTag.length), none))) := by
  constructor
  · intro h0
    unfold readFromFileWithServiceName
    rw [h0]
  · intro first rest hraw
    have h := readFromFile_cons file first rest hraw hlim
    constructor
    · intro ht
      rw [h, ht]
      rfl
    · intro ht
      rw [h, ht, declaredName_of_HasPrefix _ ht]
      rfl

theorem file_normalizer_first_line_witness :
    readFromFileWithServiceName " service_name: api : v2 \r\n\r\n GET /x \r\nPOST /y".toList
        = ((["\r".toList, " GET /x \r".toList, "POST /y".toList].map TrimSpace).filter
              (fun l => l ≠ []),
            TrimSpace ((TrimSpace " service_name: api : v2 \r".toList).drop
              serviceNameTag.length), none) ∧
    readFromFileWithServiceName "GET /x\r\n\r\nservice_name: late\n".toList
        = ((("GET /x\r".toList :: ["\r".toList, "service_name: late".toList]).map
              TrimSpace).filter (fun l => l ≠ []), [], none) :=
  ⟨((file_normalizer_first_line " service_name: api : v2 \r\n\r\n GET /x \r\nPOST /y".toList
      (by decide)).2 " service_name: api : v2 \r".toList
      ["\r".toList, " GET /x \r".toList, "POST /y".toList] (by decide)).2 (by decide),
   ((file_normalizer_first_line "GET /x\r\n\r\nservice_name: late\n".toList
      (by decide)).2 "GET /x\r".toList ["\r".toList, "service_name: late".toList]
      (by decide)).1 (by decide)⟩

/-! ## What reaches `sendLogsToLoki` -/

theorem textPrepare_ok (logText : GoString) (lines : List GoString) (sn : GoString)
    (h : textPrepare logText = .ok (lines, sn)) :
    logText ≠ [] ∧ sn = (textHeader (Split '\n' logText)).1 ∧ sn ≠ [] ∧
      lines = trimmedNonBlank (textHeader (Split '\n' logText)).2 ∧ lines ≠ [] := by
  unfold textPrepare textNormalize at h
  by_cases h0 : logText = []
  · simp [h0] at h
  · by_cases h1 : (textHeader (Split '\n' logText)).1 = []
    · simp [h0, h1] at h
    · simp only [h0, h1, if_false, collectValid_eq] at h
      by_cases h2 : (trimmedNonBlank (textHeader (Split '\n' logText)).2).length = 0
      · simp [h2] at h
      · simp only [h2, if_false, Except.ok.injEq, Prod.mk.injEq] at h
        refine ⟨h0, h.2.symm, h.2 ▸ h1, h.1.symm, ?_⟩
        rw [← h.1]
        exact fun e => h2 (by rw [e]; rfl)

theorem filePrepare_ok (fh : FileHeader) (lines : List GoString) (sn : GoString)
    (h : filePrepare fh = .ok (lines, sn)) :
    ∃ file, fh.Open = .ok file ∧ readFromFileWithServiceName file = (lines, sn, none) ∧
      sn ≠ [] ∧ lines ≠ [] := by
  unfold filePrepare at h
  cases ho : fh.Open with
  | error e => simp [ho] at h
  | ok file =>
    rw [ho] at h
    simp only at h
    rcases hr : readFromFileWithServiceName file with ⟨ls, name, err⟩
    rw [hr] at h
    cases err with
    | some e => simp at h
    | none =>
      simp only at h
      by_cases h1 : name = []
      · simp [h1] at h
      · by_cases h2 : ls.length = 0
        · simp [h1, h2] at h
        · simp only [h1, h2, if_false, Except.ok.injEq, Prod.mk.injEq] at h
          refine ⟨file, rfl, ?_, h.2 ▸ h1, ?_⟩
          · rw [hr, h.1, h.2]
          · rw [← h.1]
            exact fun e => h2 (by rw [e]; rfl)

theorem readFromFile_lines_valid (file : GoString) (x : GoString)
    (hname : (readFromFileWithServiceName file).2.1 ≠ [])
    (hx : x ∈ (readFromFileWithServiceName file).1) : x ≠ [] ∧ TrimSpace x = x := by
  unfold readFromFileWithServiceName at hname hx
  cases hraw : rawLines file with
  | nil => rw [hraw] at hx; simp at hx
  | cons raw rest =>
    rw [hraw] at hname hx
    simp only at hname hx
    cases hs : scanText raw with
    | none => rw [hs] at hname; simp at hname
    | some text =>
      rw [hs] at hname hx
      simp only at hname hx
      by_cases ht : HasPrefix (TrimSpace text) serviceNameTag = true
      · simp only [ht, if_true] at hx
        rcases scanRest_mem rest [] x hx with h | h
        · simp at h
        · exact h
      · simp [ht] at hname

/-- C7. At every call of `sendLogsToLoki` made by the text handler or by the file
handler (the handlers call it exactly when `textPrepare`, respectively
`filePrepare`, returns arguments instead of an error), the service name is
non-empty, there is at least one line, and every line is non-empty and equal to
its own trimmed form. -/
theorem handlers_send_valid_batches (logText : GoString) (fileHeader : FileHeader)
    (lines₁ lines₂ : List GoString) (name₁ name₂ : GoString)
    (htext : textPrepare logText = .ok (lines₁, name₁))
    (hfile : filePrepare fileHeader = .ok (lines₂, name₂)) :
    ValidBatch lines₁ name₁ ∧ ValidBatch lines₂ name₂ := by
  constructor
  · obtain ⟨_, _, hsn, hl, hne⟩ := textPrepare_ok logText lines₁ name₁ htext
    refine ⟨hsn, hne, fun l hm => ?_⟩
    rw [hl] at hm
    exact mem_trimmedNonBlank _ l hm
  · obtain ⟨file, _, hr, hsn, hne⟩ := filePrepare_ok fileHeader lines₂ name₂ hfile
    refine ⟨hsn, hne, fun l hm => ?_⟩
    apply readFromFile_lines_valid file l
    · rw [hr]; exact hsn
    · rw [hr]; exact hm

theorem handlers_send_valid_batches_witness :
    ValidBatch ["GET /x".toList, "POST /y".toList] "api".toList ∧
    ValidBatch ["started".toList] "db".toList :=
  handlers_send_valid_batches "service_name: api\n GET /x \r\n\nPOST /y\n".toList
    ⟨"db.log".toList, .ok "service_name:db\r\n\r\n  started\r\n".toList⟩
    ["GET /x".toList, "POST /y".toList] ["started".toList] "api".toList "db".toList
    (by rfl) (by rfl)

/-! ## The two normalizers side by side -/

theorem Split_of_rawLines_cons (content first : GoString) (rest : List GoString)
    (hraw : rawLines content = first :: rest) :
    ∃ rest', Split '\n' content = first :: rest' ∧ trimmedNonBlank rest' = trimmedNonBlank rest := by
  rcases Split_eq_rawLines content with h | h
  · exact ⟨rest, by rw [h, hraw], rfl⟩
  · refine ⟨rest ++ [[]], by rw [h, hraw]; rfl, ?_⟩
    rw [trimmedNonBlank_append]
    simp [trimmedNonBlank, TrimSpace]

theorem textPrepare_cons (logText first : GoString) (rest : List GoString)
    (hne : logText ≠ []) (hs : Split '\n' logText = first :: rest) :
    textPrepare logText =
      if HasPrefix (TrimSpace first) serviceNameTag = true then
        if declaredName (TrimSpace first) = [] then
          .error (httpError msgMissingServiceName StatusBadRequest)
        else if (trimmedNonBlank rest).length = 0 then
          .error (httpError msgNoValidLines StatusBadRequest)
        else .ok (trimmedNonBlank rest, declaredName (TrimSpace first))
      else .error (httpError msgMissingServiceName StatusBadRequest) := by
  unfold textPrepare textNormalize
  simp only [hne, if_false, hs, textHeader]
  by_cases ht : HasPrefix (TrimSpace first) serviceNameTag = true
  · simp only [ht, if_true, collectValid_eq]
    by_cases hd : declaredName (TrimSpace first) = []
    · simp [hd]
    · simp only [hd, if_false]
  · simp [ht]

theorem filePrepare_cons (name content first : GoString) (rest : List GoString)
    (hraw : rawLines content = first :: rest)
    (hlim : ∀ l ∈ rawLines content, byteLen l < MaxScanTokenSize) :
    filePrepare ⟨name, .ok content⟩ =
      if HasPrefix (TrimSpace first) serviceNameTag = true then
        if declaredName (TrimSpace first) = [] then
          .error ("ERROR: ".toList ++ name ++
            " is missing service_name. Add 'service_name: your-service-name' as the first line".toList)
        else if (trimmedNonBlank rest).length = 0 then
          .error ("ERROR: ".toList ++ name ++ " contains no valid log lines".toList)
        else .ok (trimmedNonBlank rest, declaredName (TrimSpace first))
      else .error ("ERROR: ".toList ++ name ++
            " is missing service_name. Add 'service_name: your-service-name' as the first line".toList) := by
  unfold filePrepare
  simp only [readFromFile_cons content first rest hraw hlim]
  by_cases ht : HasPrefix (TrimSpace first) serviceNameTag = true
  · simp only [ht, if_true]
  · simp [ht]

theorem prepare_agree (content name : GoString)
    (hlim : ∀ l ∈ rawLines content, byteLen l < MaxScanTokenSize) :
    (∃ lines serviceName, textPrepare content = .ok (lines, serviceName) ∧
        filePrepare ⟨name, .ok content⟩ = .ok (lines, serviceName)) ∨
    ((∃ r, textPrepare content = .error r) ∧ (∃ e, filePrepare ⟨name, .ok content⟩ = .error e)) := by
  by_cases hne : content = []
  · right
    subst hne
    exact ⟨⟨_, rfl⟩, ⟨_, rfl⟩⟩
  · have hr : rawLines content ≠ [] := fun h => hne ((rawLines_eq_nil_iff content).mp h)
    obtain ⟨first, rest, hraw⟩ := List.exists_cons_of_ne_nil hr
    obtain ⟨rest', hs, hrest⟩ := Split_of_rawLines_cons content first rest hraw
    rw [textPrepare_cons content first rest' hne hs, filePrepare_cons name content first rest hraw hlim,
      hrest]
    by_cases ht : HasPrefix (TrimSpace first) serviceNameTag = true
    · simp only [ht, if_true]
      by_cases hd : declaredName (TrimSpace first) = []
      · right; simp only [hd, if_true]; exact ⟨⟨_, rfl⟩, ⟨_, rfl⟩⟩
      · simp only [hd, if_false]
        by_cases hl : (trimmedNonBlank rest).length = 0
        · right; simp only [hl, if_true]; exact ⟨⟨_, rfl⟩, ⟨_, rfl⟩⟩
        · left; simp only [hl, if_false]; exact ⟨_, _, rfl, rfl⟩
    · right; simp only [ht]; exact ⟨⟨_, rfl⟩, ⟨_, rfl⟩⟩

theorem importText_state {σ : Type} (W : World σ) (s : σ) (lokiURL logText : GoString) :
    (importText W s lokiURL logText).2 =
      match textPrepare logText with
      | .error _ => s
      | .ok (lines, serviceName) => (sendLogsToLoki W s lokiURL lines serviceName).2 := by
  unfold importText
  cases textPrepare logText with
  | error r => rfl
  | ok p =>
    obtain ⟨lines, sn⟩ := p
    simp only
    rcases sendLogsToLoki W s lokiURL lines sn with ⟨_ | e, s'⟩ <;> rfl

theorem uploadStep_state {σ : Type} (W : World σ) (lokiURL : GoString) (st : UploadAcc × σ)
    (fileHeader : FileHeader) :
    (uploadStep W lokiURL st fileHeader).2 =
      match filePrepare fileHeader with
      | .error _ => st.2
      | .ok (lines, serviceName) => (sendLogsToLoki W st.2 lokiURL lines serviceName).2 := by
  unfold uploadStep
  cases filePrepare fileHeader with
  | error r => rfl
  | ok p =>
    obtain ⟨lines, sn⟩ := p
    simp only
    rcases sendLogsToLoki W st.2 lokiURL lines sn with ⟨_ | e, s'⟩ <;> rfl

/-- C10. The text path and the file path normalize identically. For every
content all of whose lines fit the scanner's token limit, submitting it as the
text blob and submitting it as the bytes of a single uploaded file either both
reach `sendLogsToLoki` with the same `(lines, serviceName)`, or both reject the
content before that call; in particular both leave the world in the same
state. -/
theorem text_and_file_paths_agree {σ : Type} (W : World σ) (s : σ)
    (lokiURL content name : GoString)
    (hlim : ∀ l ∈ rawLines content, byteLen l < MaxScanTokenSize) :
    ((∃ lines serviceName, textPrepare content = .ok (lines, serviceName) ∧
        filePrepare ⟨name, .ok content⟩ = .ok (lines, serviceName)) ∨
      ((∃ r, textPrepare content = .error r) ∧
        (∃ e, filePrepare ⟨name, .ok content⟩ = .error e))) ∧
    (importText W s lokiURL content).2 = (uploadFiles W s lokiURL [⟨name, .ok content⟩]).2 := by
  have h := prepare_agree content name hlim
  refine ⟨h, ?_⟩
  have hu : (uploadFiles W s lokiURL [⟨name, .ok content⟩]).2
      = (uploadStep W lokiURL (⟨[], [], 0⟩, s) ⟨name, .ok content⟩).2 := by
    simp [uploadFiles, processFiles]
  rw [hu, importText_state, uploadStep_state]
  rcases h with ⟨lines, sn, h1, h2⟩ | ⟨⟨r, h1⟩, ⟨e, h2⟩⟩
  · rw [h1, h2]
  · rw [h1, h2]

theorem text_and_file_paths_agree_witness :
    ((∃ lines serviceName,
        textPrepare "service_name: api\r\n GET /x \r\n\r\nPOST /y\r\n".toList
          = .ok (lines, serviceName) ∧
        filePrepare ⟨"api.log".toList, .ok "service_name: api\r\n GET /x \r\n\r\nPOST /y\r\n".toList⟩
          = .ok (lines, serviceName)) ∨
      ((∃ r, textPrepare "service_name: api\r\n GET /x \r\n\r\nPOST /y\r\n".toList = .error r) ∧
        (∃ e, filePrepare
          ⟨"api.log".toList, .ok "service_name: api\r\n GET /x \r\n\r\nPOST /y\r\n".toList⟩
            = .error e))) ∧
    (importText (simulatedWorld 5 204 []) [] "http://loki".toList
        "service_name: api\r\n GET /x \r\n\r\nPOST /y\r\n".toList).2
      = (uploadFiles (simulatedWorld 5 204 []) [] "http://loki".toList
          [⟨"api.log".toList, .ok "service_name: api\r\n GET /x \r\n\r\nPOST /y\r\n".toList⟩]).2 :=
  text_and_file_paths_agree (simulatedWorld 5 204 []) [] "http://loki".toList
    "service_name: api\r\n GET /x \r\n\r\nPOST /y\r\n".toList "api.log".toList (by decide)

/-! ## The formatter loop in closed form -/

theorem buildValues_eq (now : Int) (i : Nat) (lines : List GoString) (acc : List (List GoString)) :
    buildValues now i lines acc = acc ++ (lines.enumFrom i).filterMap (fun p =>
      if TrimSpace p.2 = [] then none else some [FormatInt (unixNanoAfter now p.1), p.2]) := by
  induction lines generalizing i acc with
  | nil => simp [buildValues]
  | cons l ls ih =>
    unfold buildValues
    by_cases hb : TrimSpace l = []
    · simp [hb, ih]
    · simp [hb, ih]

theorem mem_enumFrom_bounds (lines : List GoString) (i : Nat) (p : Nat × GoString)
    (hp : p ∈ lines.enumFrom i) : i ≤ p.1 ∧ p.1 < i + lines.length ∧ p.2 ∈ lines := by
  obtain ⟨k, x⟩ := p
  have h := List.mem_enumFrom hp
  refine ⟨h.1, h.2.1, ?_⟩
  rw [h.2.2]
  exact List.getElem_mem _

/-- Without overflow at the lines that are kept, the loop of `sendLogsToLoki`
pairs every kept line with the decimal rendering of the instant plus 1000 times
its position. -/
theorem buildValues_exact (r : Int) (lines : List GoString)
    (hrange : ∀ p ∈ lines.enum, TrimSpace p.2 ≠ [] →
      -2 ^ 63 ≤ r + 1000 * (p.1 : Int) ∧ r + 1000 * (p.1 : Int) < 2 ^ 63) :
    buildValues r 0 lines [] = lines.enum.filterMap (fun p =>
      if TrimSpace p.2 = [] then none else some [FormatInt (r + 1000 * (p.1 : Int)), p.2]) := by
  rw [buildValues_eq, List.nil_append, ← List.enum_eq_enumFrom]
  apply List.filterMap_congr
  intro p hp
  by_cases hb : TrimSpace p.2 = []
  · simp [hb]
  · have h := hrange p hp hb
    simp only [hb, if_false]
    rw [unixNanoAfter_eq r p.1 h.1 h.2]

theorem buildValues_nonblank (r : Int) (lines : List GoString)
    (hnb : ∀ l ∈ lines, TrimSpace l ≠ [])
    (hrange : ∀ i < lines.length,
      -2 ^ 63 ≤ r + 1000 * (i : Int) ∧ r + 1000 * (i : Int) < 2 ^ 63) :
    buildValues r 0 lines [] =
      lines.enum.map (fun p => [FormatInt (r + 1000 * (p.1 : Int)), p.2]) := by
  rw [buildValues_exact r lines]
  · rw [← List.filterMap_eq_map]
    apply List.filterMap_congr
    intro p hp
    have hm := (mem_enumFrom_bounds lines 0 p hp).2.2
    simp [hnb p.2 hm]
  · intro p hp _
    have hb := (mem_enumFrom_bounds lines 0 p hp).2.1
    exact hrange p.1 (by omega)

/-- C4. For every reference instant and every sequence of `N` non-blank lines
such that the instant plus `i` microseconds fits a signed 64-bit nanosecond
count for every position `i`, the loop of `sendLogsToLoki` produces `N` values,
the `i`-th being the pair of a timestamp and the `i`-th line; every timestamp
reads as a base-10 integer, namely the instant plus 1000 times `i`; and read as
integers the timestamps are strictly increasing in sequence order. -/
theorem timestamps_strictly_increasing (r : Int) (lines : List GoString)
    (hnb : ∀ l ∈ lines, TrimSpace l ≠ [])
    (hrange : ∀ i < lines.length,
      -2 ^ 63 ≤ r + 1000 * (i : Int) ∧ r + 1000 * (i : Int) < 2 ^ 63) :
    (buildValues r 0 lines []).length = lines.length ∧
    (buildValues r 0 lines []).map (fun v => v.tail) = lines.map (fun l => [l]) ∧
    (buildValues r 0 lines []).map (fun v => readInt (v.headD []))
      = (List.range lines.length).map (fun (i : Nat) => some (r + 1000 * (i : Int))) ∧
    List.Pairwise (fun a b => a < b)
      ((buildValues r 0 lines []).filterMap (fun v => readInt (v.headD []))) := by
  have hv := buildValues_nonblank r lines hnb hrange
  refine ⟨by rw [hv]; simp, ?_, ?_, ?_⟩
  · rw [hv, List.map_map]
    conv_rhs => rw [← List.enum_map_snd lines, List.map_map]
    apply List.map_congr_left
    intro p _
    rfl
  · rw [hv, ← List.enum_map_fst lines, List.map_map, List.map_map]
    apply List.map_congr_left
    intro p _
    simp [readInt_FormatInt]
  · have hf : (buildValues r 0 lines []).filterMap (fun v => readInt (v.headD []))
        = lines.enum.map (fun p => r + 1000 * (p.1 : Int)) := by
      rw [hv, List.filterMap_map, ← List.filterMap_eq_map]
      apply List.filterMap_congr
      intro p _
      simp [readInt_FormatInt]
    rw [hf, List.pairwise_map]
    have hfst : List.Pairwise (fun a b => a < b) (lines.enum.map Prod.fst) := by
      rw [List.enum_map_fst]
      exact List.pairwise_lt_range _
    rw [List.pairwise_map] at hfst
    exact hfst.imp (fun {a b} hab => by
      have : (a.1 : Int) < (b.1 : Int) := by exact_mod_cast hab
      omega)

theorem timestamps_strictly_increasing_witness :
    (buildValues 1719219600123456789 0 ["alpha".toList, " beta ".toList, "gamma".toList] []).length
      = ["alpha".toList, " beta ".toList, "gamma".toList].length ∧
    (buildValues 1719219600123456789 0 ["alpha".toList, " beta ".toList, "gamma".toList] []).map
        (fun v => v.tail)
      = ["alpha".toList, " beta ".toList, "gamma".toList].map (fun l => [l]) ∧
    (buildValues 1719219600123456789 0 ["alpha".toList, " beta ".toList, "gamma".toList] []).map
        (fun v => readInt (v.headD []))
      = (List.range ["alpha".toList, " beta ".toList, "gamma".toList].length).map
          (fun (i : Nat) => some (1719219600123456789 + 1000 * (i : Int))) ∧
    List.Pairwise (fun a b => a < b)
      ((buildValues 1719219600123456789 0
          ["alpha".toList, " beta ".toList, "gamma".toList] []).filterMap
        (fun v => readInt (v.headD []))) :=
  timestamps_strictly_increasing 1719219600123456789
    ["alpha".toList, " beta ".toList, "gamma".toList] (by decide) (by decide)

/-! ## The sender -/

theorem buildValues_ne_nil (now : Int) (lines : List GoString)
    (h : ∃ l ∈ lines, TrimSpace l ≠ []) : (buildValues now 0 lines []).length ≠ 0 := by
  rw [buildValues_eq, List.nil_append]
  obtain ⟨l, hl, hb⟩ := h
  obtain ⟨k, hk, hget⟩ := List.getElem_of_mem hl
  have hmem : (k, l) ∈ lines.enumFrom 0 := by
    rw [List.mk_mem_enumFrom_iff_le_and_getElem?_sub]
    simp [List.getElem?_eq_getElem hk, hget]
  intro h0
  have hnil := List.length_eq_zero.mp h0
  rw [List.filterMap_eq_nil_iff] at hnil
  have := hnil (k, l) hmem
  simp [hb] at this

theorem sendLogsToLoki_posts {σ : Type} (W : World σ) (s : σ) (lokiURL job : GoString)
    (lines : List GoString) (h : ∃ l ∈ lines, TrimSpace l ≠ []) :
    sendLogsToLoki W s lokiURL lines job =
      (interpretPost (W.post (W.now s).2 (lokiURL ++ pushPath)
          (mkRequest job (buildValues (W.now s).1 0 lines []))).1,
        (W.post (W.now s).2 (lokiURL ++ pushPath)
          (mkRequest job (buildValues (W.now s).1 0 lines []))).2) := by
  have hl : lines.length ≠ 0 := by
    obtain ⟨l, hl, _⟩ := h
    exact fun h0 => by rw [List.length_eq_zero.mp h0] at hl; simp at hl
  unfold sendLogsToLoki
  simp only [hl, if_false, buildValues_ne_nil (W.now s).1 lines h]

/-- C5. With a backend that answers every push with a status and a body, for
every non-empty sequence of non-blank lines `sendLogsToLoki` succeeds if and only
if the status is 204; for any other status the result is the error
`Loki returned status <status>: <body>`, whose message contains the decimal
rendering of the status and the full text of the body. -/
theorem backend_status_decides_result {σ : Type} (W : World σ) (s : σ)
    (lokiURL job : GoString) (lines : List GoString) (status : Int) (body : GoString)
    (hne : lines ≠ []) (hnb : ∀ l ∈ lines, TrimSpace l ≠ [])
    (hback : ∀ s' url req, (W.post s' url req).1 = .ok (status, body)) :
    ((sendLogsToLoki W s lokiURL lines job).1 = none ↔ status = 204) ∧
    (status ≠ 204 →
      ∃ msg, (sendLogsToLoki W s lokiURL lines job).1 = some msg ∧
        msg = "Loki returned status ".toList ++ FormatInt status ++ ": ".toList ++ body ∧
        FormatInt status <:+: msg ∧ body <:+: msg) := by
  obtain ⟨l, hl⟩ := List.exists_mem_of_ne_nil lines hne
  rw [sendLogsToLoki_posts W s lokiURL job lines ⟨l, hl, hnb l hl⟩]
  simp only [hback, interpretPost, StatusNoContent]
  by_cases hs : status = 204
  · simp [hs]
  · simp only [hs, ne_eq, not_false_eq_true, if_true, false_iff, forall_true_left]
    refine ⟨by simp, _, rfl, rfl, ?_, ?_⟩
    · exact ⟨"Loki returned status ".toList, ": ".toList ++ body, by simp⟩
    · exact ⟨"Loki returned status ".toList ++ FormatInt status ++ ": ".toList, [], by simp⟩

theorem backend_status_decides_result_witness :
    ((sendLogsToLoki (simulatedWorld 1719219600000000000 500 "disk full".toList) []
        "http://loki:3100".toList ["first".toList, "second".toList] "billing".toList).1 = none
      ↔ (500 : Int) = 204) ∧
    ((500 : Int) ≠ 204 →
      ∃ msg, (sendLogsToLoki (simulatedWorld 1719219600000000000 500 "disk full".toList) []
          "http://loki:3100".toList ["first".toList, "second".toList] "billing".toList).1 = some msg ∧
        msg = "Loki returned status ".toList ++ FormatInt 500 ++ ": ".toList ++ "disk full".toList ∧
        FormatInt 500 <:+: msg ∧ "disk full".toList <:+: msg) :=
  backend_status_decides_result (simulatedWorld 1719219600000000000 500 "disk full".toList) []
    "http://loki:3100".toList "billing".toList ["first".toList, "second".toList] 500
    "disk full".toList (by decide) (by decide) (fun _ _ _ => rfl)

/-! ## The request that is posted -/

/-- C9 (amended). For every reference instant `r`, service name and sequence of
lines with at least one non-blank line, provided `r + 1000 * i` fits the signed
64-bit range at every position `i` of a non-blank line, `sendLogsToLoki` posts,
to the push path of the backend, the request made of exactly one stream whose
labels are `job` and `service_name`, both the service name, and `source`, which
is `ui-import`, and whose values are, in input order, the pairs of the decimal
rendering of `r + 1000 * i` and the untouched line `i`, for the positions `i`
whose line is not blank; its result is read from the answer to that post. -/
theorem request_payload {σ : Type} (W : World σ) (s s₁ : σ) (r : Int)
    (lokiURL job : GoString) (lines : List GoString)
    (hnow : W.now s = (r, s₁))
    (hsome : ∃ l ∈ lines, TrimSpace l ≠ [])
    (hrange : ∀ p ∈ lines.enum, TrimSpace p.2 ≠ [] →
      -2 ^ 63 ≤ r + 1000 * (p.1 : Int) ∧ r + 1000 * (p.1 : Int) < 2 ^ 63) :
    sendLogsToLoki W s lokiURL lines job =
      (interpretPost (W.post s₁ (lokiURL ++ "/loki/api/v1/push".toList)
          { Streams := [{
              Stream := [("job".toList, job), ("source".toList, "ui-import".toList),
                ("service_name".toList, job)],
              Values := lines.enum.filterMap (fun p =>
                if TrimSpace p.2 = [] then none
                else some [FormatInt (r + 1000 * (p.1 : Int)), p.2]) }] }).1,
        (W.post s₁ (lokiURL ++ "/loki/api/v1/push".toList)
          { Streams := [{
              Stream := [("job".toList, job), ("source".toList, "ui-import".toList),
                ("service_name".toList, job)],
              Values := lines.enum.filterMap (fun p =>
                if TrimSpace p.2 = [] then none
                else some [FormatInt (r + 1000 * (p.1 : Int)), p.2]) }] }).2) := by
  rw [sendLogsToLoki_posts W s lokiURL job lines hsome, hnow]
  simp only [buildValues_exact r lines hrange]
  rfl

theorem request_payload_witness :
    sendLogsToLoki (simulatedWorld 1719219600000000000 204 []) [] "http://loki:3100".toList
        ["first".toList, "  ".toList, " third ".toList] "billing".toList =
      (interpretPost ((simulatedWorld 1719219600000000000 204 []).post []
          ("http://loki:3100".toList ++ "/loki/api/v1/push".toList)
          { Streams := [{
              Stream := [("job".toList, "billing".toList), ("source".toList, "ui-import".toList),
                ("service_name".toList, "billing".toList)],
              Values := ["first".toList, "  ".toList, " third ".toList].enum.filterMap (fun p =>
                if TrimSpace p.2 = [] then none
                else some [FormatInt (1719219600000000000 + 1000 * (p.1 : Int)), p.2]) }] }).1,
        ((simulatedWorld 1719219600000000000 204 []).post []
          ("http://loki:3100".toList ++ "/loki/api/v1/push".toList)
          { Streams := [{
              Stream := [("job".toList, "billing".toList), ("source".toList, "ui-import".toList),
                ("service_name".toList, "billing".toList)],
              Values := ["first".toList, "  ".toList, " third ".toList].enum.filterMap (fun p =>
                if TrimSpace p.2 = [] then none
                else some [FormatInt (1719219600000000000 + 1000 * (p.1 : Int)), p.2]) }] }).2) :=
  request_payload (simulatedWorld 1719219600000000000 204 []) [] [] 1719219600000000000
    "http://loki:3100".toList "billing".toList ["first".toList, "  ".toList, " third ".toList]
    rfl (by decide) (by decide)

set_option maxRecDepth 20000 in
/-- C9 as stated fails when the 64-bit nanosecond count overflows: at the
reference instant `2^63 - 1` the second of two lines is posted with the
timestamp `-9223372036854774809`, not with the decimal rendering of
`r + 1000`, which is `9223372036854776807`. -/
theorem request_payload_overflow_counterexample :
    (sendLogsToLoki (simulatedWorld 9223372036854775807 204 []) [] "http://loki:3100".toList
        ["a".toList, "b".toList] "svc".toList).2
      = [("http://loki:3100/loki/api/v1/push".toList,
          { Streams := [{
              Stream := [("job".toList, "svc".toList), ("source".toList, "ui-import".toList),
                ("service_name".toList, "svc".toList)],
              Values := [["9223372036854775807".toList, "a".toList],
                ["-9223372036854774809".toList, "b".toList]] }] })] ∧
    ["a".toList, "b".toList].enum.filterMap (fun p =>
        if TrimSpace p.2 = [] then none
        else some [FormatInt (9223372036854775807 + 1000 * (p.1 : Int)), p.2])
      = [["9223372036854775807".toList, "a".toList],
          ["9223372036854776807".toList, "b".toList]] ∧
    (sendLogsToLoki (simulatedWorld 9223372036854775807 204 []) [] "http://loki:3100".toList
        ["a".toList, "b".toList] "svc".toList).2
      ≠ [("http://loki:3100/loki/api/v1/push".toList,
          { Streams := [{
              Stream := [("job".toList, "svc".toList), ("source".toList, "ui-import".toList),
                ("service_name".toList, "svc".toList)],
              Values := ["a".toList, "b".toList].enum.filterMap (fun p =>
                if TrimSpace p.2 = [] then none
                else some [FormatInt (9223372036854775807 + 1000 * (p.1 : Int)), p.2]) }] })] := by
  have hposted : (sendLogsToLoki (simulatedWorld 9223372036854775807 204 []) []
      "http://loki:3100".toList ["a".toList, "b".toList] "svc".toList).2
      = [("http://loki:3100/loki/api/v1/push".toList,
          { Streams := [{
              Stream := [("job".toList, "svc".toList), ("source".toList, "ui-import".toList),
                ("service_name".toList, "svc".toList)],
              Values := [["9223372036854775807".toList, "a".toList],
                ["-9223372036854774809".toList, "b".toList]] }] })] := by rfl
  have hclaimed : ["a".toList, "b".toList].enum.filterMap (fun p =>
        if TrimSpace p.2 = [] then none
        else some [FormatInt (9223372036854775807 + 1000 * (p.1 : Int)), p.2])
      = [["9223372036854775807".toList, "a".toList],
          ["9223372036854776807".toList, "b".toList]] := by decide
  refine ⟨hposted, hclaimed, ?_⟩
  rw [hposted, hclaimed]
  intro h
  simp only [List.cons.injEq, Prod.mk.injEq, LokiRequest.mk.injEq, LokiStream.mk.injEq,
    and_true, true_and] at h
  revert h
  decide

/-! ## The file handler's loop -/

set_option maxRecDepth 100000 in
/-- The report for the example upload, computed: two success entries, one error
entry naming `worker.log`, status 200. -/
theorem exampleUpload_report :
    (uploadFiles (simulatedWorld 1719219600000000000 204 []) [] "http://loki:3100".toList
        exampleUpload).1
      = ⟨200, ("Processed 3 file(s), imported 3 total lines\n\nSUCCESS:\n" ++
          "✓ api.log: 2 lines imported (service: api)\n" ++
          "✓ db.log: 1 lines imported (service: db)\n\nERRORS:\n" ++
          "ERROR: worker.log is missing service_name. " ++
          "Add 'service_name: your-service-name' as the first line").toList⟩ := by
  rfl

set_option maxRecDepth 100000 in
/-- The report when the only file passes every check and the backend answers
500: the file counts as failed, and the response is the client error 400 with
its error entry. -/
theorem rejectedUpload_report :
    (uploadFiles (simulatedWorld 1719219600000000000 500 "disk full".toList) []
        "http://loki:3100".toList
        [⟨"api.log".toList, .ok "service_name: api\nGET /x\n".toList⟩]).1
      = ⟨400, "Failed to import api.log: Loki returned status 500: disk full\n".toList⟩ := by
  rfl

end LokiLogs
